import Mathlib

/-!
Verification development for the NanoOWL FRC fuel-detection repository
(streaming relay and worker-supervision tier).

The definitions below are a shallow embedding of the Python sources:

* `pi_server.py` — `MJPEGForwarder.forward_frames` (buffer accumulation,
  boundary search via `bytes.find`, fan-out with per-client eviction),
  `PiServer.check_jetson_workers`, and `Handler.serve_camera_stream`.
* `jetson/camera_worker.py` — `CameraWorker.init_camera` and
  `CameraWorker.stream_to_client`.
* `jetson/detection_worker.py` — `DetectionWorker.init_camera`,
  `DetectionWorker.stream_to_client`, `DetectionWorker.start_command_server`
  and `DetectionWorker.read_frame`.

Bytes are modelled as `List Nat` (one `Nat` per byte value).
-/

namespace NanoOwl

/-- The MJPEG boundary token `--frame\r\n` used by
`MJPEGForwarder.forward_frames` (`pi_server.py` line 67), as ASCII byte
values: `- - f r a m e CR LF`. -/
def boundary : List Nat := [45, 45, 102, 114, 97, 109, 101, 13, 10]

/-- Helper for `bfind`: scan `l` from the front and return the offset of the
first position at which `pat` is a prefix of the remaining list (Python
`bytes.find` semantics, success cases only). -/
def bfindAux (pat : List Nat) : List Nat → Option Nat
  | [] => if pat.isEmpty then some 0 else none
  | b :: bs =>
    if pat.isPrefixOf (b :: bs) then some 0
    else (bfindAux pat bs).map (· + 1)

/-- Model of Python `buffer.find(pat, start)` (`pi_server.py` lines 69–70):
the least index `j ≥ start` such that `pat` occurs in `buf` at `j`, or
`none` when there is no such occurrence (Python returns `-1`). -/
def bfind (pat buf : List Nat) (start : Nat) : Option Nat :=
  (bfindAux pat (buf.drop start)).map (· + start)

theorem bfindAux_occ {pat l : List Nat} {j : Nat}
    (h : bfindAux pat l = some j) : pat <+: l.drop j := by
  induction l generalizing j with
  | nil =>
    simp only [bfindAux] at h
    split at h
    · rename_i hp
      cases h
      simp [List.isEmpty_iff] at hp
      simp [hp]
    · exact absurd h (by simp)
  | cons b bs ih =>
    simp only [bfindAux] at h
    split at h
    · rename_i hp
      cases h
      simpa [List.IsPrefix] using List.isPrefixOf_iff_prefix.mp hp
    · rename_i hp
      rcases Option.map_eq_some'.mp h with ⟨j0, hj0, rfl⟩
      simpa using ih hj0

theorem bfindAux_min {pat l : List Nat} {j : Nat}
    (h : bfindAux pat l = some j) :
    ∀ k, k < j → ¬ pat <+: l.drop k := by
  induction l generalizing j with
  | nil =>
    simp only [bfindAux] at h
    split at h
    · cases h; omega
    · exact absurd h (by simp)
  | cons b bs ih =>
    simp only [bfindAux] at h
    split at h
    · cases h; omega
    · rename_i hp
      rcases Option.map_eq_some'.mp h with ⟨j0, hj0, rfl⟩
      intro k hk
      cases k with
      | zero =>
        simpa [List.isPrefixOf_iff_prefix] using hp
      | succ k0 =>
        simpa using ih hj0 k0 (by omega)

theorem bfindAux_none {pat l : List Nat} (hpat : pat ≠ [])
    (h : bfindAux pat l = none) :
    ∀ k, ¬ pat <+: l.drop k := by
  induction l with
  | nil =>
    intro k hk
    simp only [List.drop_nil] at hk
    exact hpat (List.prefix_nil.mp hk)
  | cons b bs ih =>
    simp only [bfindAux] at h
    split at h
    · exact absurd h (by simp)
    · rename_i hp
      intro k hk
      cases k with
      | zero =>
        exact hp (by simpa [List.isPrefixOf_iff_prefix] using hk)
      | succ k0 =>
        have := ih (by simpa using h) k0
        simpa using absurd (by simpa using hk) this

theorem bfind_ge {pat buf : List Nat} {s j : Nat}
    (h : bfind pat buf s = some j) : s ≤ j := by
  rcases Option.map_eq_some'.mp h with ⟨j0, _, rfl⟩
  omega

theorem bfind_occ {pat buf : List Nat} {s j : Nat}
    (h : bfind pat buf s = some j) : pat <+: buf.drop j := by
  rcases Option.map_eq_some'.mp h with ⟨j0, hj0, rfl⟩
  have := bfindAux_occ hj0
  rwa [List.drop_drop, Nat.add_comm] at this

theorem bfind_min {pat buf : List Nat} {s j : Nat}
    (h : bfind pat buf s = some j) :
    ∀ k, s ≤ k → k < j → ¬ pat <+: buf.drop k := by
  rcases Option.map_eq_some'.mp h with ⟨j0, hj0, rfl⟩
  intro k hks hkj
  have := bfindAux_min hj0 (k - s) (by omega)
  rw [List.drop_drop] at this
  have he : s + (k - s) = k := by omega
  rwa [he] at this

theorem bfind_none {pat buf : List Nat} {s : Nat} (hpat : pat ≠ [])
    (h : bfind pat buf s = none) :
    ∀ k, s ≤ k → ¬ pat <+: buf.drop k := by
  intro k hks
  have h0 : bfindAux pat (buf.drop s) = none := by
    simpa [bfind] using h
  have := bfindAux_none hpat h0 (k - s)
  rw [List.drop_drop] at this
  have he : s + (k - s) = k := by omega
  rwa [he] at this

theorem bfind_bound {pat buf : List Nat} {s j : Nat} (hpat : pat ≠ [])
    (h : bfind pat buf s = some j) : j + pat.length ≤ buf.length := by
  have hp := bfind_occ h
  have hle := hp.length_le
  simp only [List.length_drop] at hle
  by_cases hj : j ≤ buf.length
  · omega
  · exfalso
    have hd : buf.drop j = [] := List.drop_eq_nil_of_le (by omega)
    rw [hd, List.prefix_nil] at hp
    exact hpat hp

/-- The inner frame-slicing loop of `MJPEGForwarder.forward_frames`
(`pi_server.py` lines 67–76):

    while b"--frame\r\n" in buffer:
        start = buffer.find(b"--frame\r\n")
        next_frame = buffer.find(b"--frame\r\n", start + 9)
        if next_frame == -1:
            break
        frame_data = buffer[start:next_frame]
        buffer = buffer[next_frame:]

The membership test and the first `find` collapse into one `bfind` match.
The loop is fuel-indexed: every iteration removes at least the 9 boundary
bytes, so `buf.length` fuel always suffices and the fuel-exhausted branch
behaves like the loop exit. Returns (frames sliced out, remaining buffer). -/
def extractLoop : Nat → List Nat → List (List Nat) × List Nat
  | 0, buf => ([], buf)
  | fuel + 1, buf =>
    match bfind boundary buf 0 with
    | none => ([], buf)
    | some s =>
      match bfind boundary buf (s + 9) with
      | none => ([], buf)
      | some n =>
        let r := extractLoop fuel (buf.drop n)
        ((buf.drop s).take (n - s) :: r.1, r.2)

/-- All complete frames the forwarder slices out of an accumulated buffer,
together with the buffer bytes it keeps. -/
def extractFrames (buf : List Nat) : List (List Nat) × List Nat :=
  extractLoop buf.length buf

/-- A downstream consumer held in `MJPEGForwarder.clients`. `failsWrite`
models whether writing to this consumer raises (the client disconnected). -/
structure Client where
  id : Nat
  failsWrite : Bool
deriving DecidableEq

/-- The per-chunk write loop of `MJPEGForwarder.forward_frames`
(`pi_server.py` lines 80–90): attempt the write to every client in registry
order; a client whose write raises is collected in `dead_clients`.
Returns (successful writes as (client, bytes) pairs, dead clients). -/
def sendLoop (chunk : List Nat) : List Client → List (Client × List Nat) × List Client
  | [] => ([], [])
  | c :: cs =>
    let r := sendLoop chunk cs
    if c.failsWrite then (r.1, c :: r.2)
    else ((c, chunk) :: r.1, r.2)

/-- `for client in dead_clients: self.clients.remove(client)`
(`pi_server.py` lines 93–94): Python `list.remove` deletes the first
occurrence, i.e. `List.erase`. -/
def removeClients (clients dead : List Client) : List Client :=
  dead.foldl (fun acc c => acc.erase c) clients

/-- One complete fan-out of a sliced frame under `self.lock`
(`pi_server.py` lines 79–94): returns the writes performed and the registry
after evicting dead clients. -/
def forwardOne (clients : List Client) (chunk : List Nat) :
    List (Client × List Nat) × List Client :=
  ((sendLoop chunk clients).1, removeClients clients (sendLoop chunk clients).2)

theorem sendLoop_writes (chunk : List Nat) (cs : List Client) :
    (sendLoop chunk cs).1
      = (cs.filter (fun c => !c.failsWrite)).map (fun c => (c, chunk)) := by
  induction cs with
  | nil => rfl
  | cons c cs ih =>
    by_cases h : c.failsWrite <;> simp [sendLoop, h, ih]

theorem sendLoop_dead (chunk : List Nat) (cs : List Client) :
    (sendLoop chunk cs).2 = cs.filter (fun c => c.failsWrite) := by
  induction cs with
  | nil => rfl
  | cons c cs ih =>
    by_cases h : c.failsWrite <;> simp [sendLoop, h, ih]

theorem foldl_erase_cons {α : Type} [DecidableEq α] (a : α) (l dead : List α)
    (h : ∀ c ∈ dead, c ≠ a) :
    dead.foldl (fun acc c => acc.erase c) (a :: l)
      = a :: dead.foldl (fun acc c => acc.erase c) l := by
  induction dead generalizing l with
  | nil => rfl
  | cons d ds ih =>
    have hda : d ≠ a := h d (by simp)
    simp only [List.foldl_cons]
    rw [List.erase_cons_tail]
    · exact ih (l.erase d) (fun c hc => h c (by simp [hc]))
    · simp [beq_iff_eq]
      exact fun he => absurd he.symm hda

theorem foldl_erase_filter {α : Type} [DecidableEq α] (l : List α) (p : α → Bool) :
    (l.filter p).foldl (fun acc c => acc.erase c) l
      = l.filter (fun c => !p c) := by
  induction l with
  | nil => rfl
  | cons a l ih =>
    by_cases h : p a
    · simp only [List.filter_cons, h, if_pos, List.foldl_cons]
      rw [List.erase_cons_head]
      simpa [h] using ih
    · have hne : ∀ c ∈ l.filter p, c ≠ a := by
        intro c hc
        have := List.of_mem_filter hc
        intro he
        rw [he] at this
        exact h this
      have h1 : (a :: l).filter p = l.filter p := by
        simp [List.filter_cons, h]
      have h2 : (a :: l).filter (fun c => !p c) = a :: l.filter (fun c => !p c) := by
        simp [List.filter_cons, h]
      rw [h1, h2, foldl_erase_cons a l (l.filter p) hne, ih]

/-- The registry after one fan-out is exactly the clients whose write
succeeded: a failing client is evicted, every other client is kept. -/
theorem forwardOne_registry (clients : List Client) (chunk : List Nat) :
    (forwardOne clients chunk).2 = clients.filter (fun c => !c.failsWrite) := by
  show removeClients clients (sendLoop chunk clients).2 = _
  rw [removeClients, sendLoop_dead]
  exact foldl_erase_filter clients (fun c => c.failsWrite)

/-- The writes performed by one fan-out: every non-failing client, in
registry order, receives exactly the sliced chunk bytes. -/
theorem forwardOne_writes (clients : List Client) (chunk : List Nat) :
    (forwardOne clients chunk).1
      = (clients.filter (fun c => !c.failsWrite)).map (fun c => (c, chunk)) := by
  unfold forwardOne
  exact sendLoop_writes chunk clients

theorem boundary_ne_nil : boundary ≠ [] := by decide

theorem boundary_length : boundary.length = 9 := rfl

theorem take_isPrefix {α : Type} (k : Nat) (l : List α) : l.take k <+: l :=
  ⟨l.drop k, List.take_append_drop k l⟩

/-- The boundary token does not overlap itself: no proper suffix-shift of
`--frame\r\n` matches its own prefix. -/
theorem boundary_no_overlap :
    ∀ j, j < 9 → 0 < j → boundary.drop j ≠ boundary.take (9 - j) := by
  decide

/-- A sliced frame `buffer[start:next_frame]` contains the boundary token
only at its very start: an internal occurrence would either overlap the
leading token (impossible, the token does not overlap itself) or contradict
the minimality of `next_frame` as returned by `bytes.find`. -/
theorem frame_no_internal {buf : List Nat} {s n : Nat}
    (hs : boundary <+: buf.drop s)
    (hmin : ∀ k, s + 9 ≤ k → k < n → ¬ boundary <+: buf.drop k)
    (hsn : s + 9 ≤ n) (hnb : n ≤ buf.length) :
    ∀ j, 0 < j → ¬ boundary <+: ((buf.drop s).take (n - s)).drop j := by
  intro j hj hpre
  have hflen : (((buf.drop s).take (n - s)).drop j).length = n - s - j := by
    simp only [List.length_drop, List.length_take]
    omega
  have hlen9 : 9 ≤ n - s - j := by
    have := hpre.length_le
    rw [hflen] at this
    simpa [boundary_length] using this
  have hslice : ((buf.drop s).take (n - s)).drop j
      = (buf.drop (s + j)).take (n - s - j) := by
    rw [List.drop_take, List.drop_drop]
  rw [hslice] at hpre
  have hdrop : boundary <+: buf.drop (s + j) :=
    hpre.trans (take_isPrefix _ _)
  by_cases hj9 : 9 ≤ j
  · exact hmin (s + j) (by omega) (by omega) hdrop
  · obtain ⟨t, ht⟩ := hs
    have hd : buf.drop (s + j) = boundary.drop j ++ t := by
      rw [← List.drop_drop, ← ht,
        List.drop_append_of_le_length (by rw [boundary_length]; omega)]
    rw [hd] at hdrop
    have h1 : boundary.drop j <+: boundary.drop j ++ t := ⟨t, rfl⟩
    have h2 : boundary.drop j <+: boundary :=
      List.prefix_of_prefix_length_le h1 hdrop (by simp [boundary_length])
    have h3 := List.prefix_iff_eq_take.mp h2
    have h4 : (boundary.drop j).length = 9 - j := by
      simp [boundary_length]
    rw [h4] at h3
    exact boundary_no_overlap j (by omega) hj h3

/-- Decomposition of one pass of the slicing loop: the buffer splits as
initial junk (dropped bytes before the first boundary), the concatenation
of the sliced frames in order, and the retained remainder; if the buffer
already starts with the boundary token, no bytes are dropped. -/
theorem extractLoop_join : ∀ (fuel : Nat) (buf : List Nat),
    ∃ junk, junk ++ (extractLoop fuel buf).1.flatten ++ (extractLoop fuel buf).2 = buf
      ∧ (boundary <+: buf → junk = []) := by
  intro fuel
  induction fuel with
  | zero =>
    intro buf
    exact ⟨[], by simp [extractLoop], fun _ => rfl⟩
  | succ fuel ih =>
    intro buf
    cases h0 : bfind boundary buf 0 with
    | none => exact ⟨[], by simp [extractLoop, h0], fun _ => rfl⟩
    | some s =>
      cases h1 : bfind boundary buf (s + 9) with
      | none => exact ⟨[], by simp [extractLoop, h0, h1], fun _ => rfl⟩
      | some n =>
        have hE : extractLoop (fuel + 1) buf
            = ((buf.drop s).take (n - s) :: (extractLoop fuel (buf.drop n)).1,
               (extractLoop fuel (buf.drop n)).2) := by
          simp [extractLoop, h0, h1]
        have hbn : boundary <+: buf.drop n := bfind_occ h1
        obtain ⟨junk, hjoin, hnil⟩ := ih (buf.drop n)
        rw [hnil hbn, List.nil_append] at hjoin
        have hsn : s + 9 ≤ n := bfind_ge h1
        have hnb : n + 9 ≤ buf.length := by
          have := bfind_bound boundary_ne_nil h1
          rwa [boundary_length] at this
        refine ⟨buf.take s, ?_, ?_⟩
        · rw [hE]
          simp only [List.flatten_cons]
          have h3 : (buf.drop s).drop (n - s) = buf.drop n := by
            rw [List.drop_drop]
            congr 1
            omega
          calc buf.take s
              ++ ((buf.drop s).take (n - s) ++ (extractLoop fuel (buf.drop n)).1.flatten)
              ++ (extractLoop fuel (buf.drop n)).2
              = buf.take s ++ ((buf.drop s).take (n - s)
                ++ ((extractLoop fuel (buf.drop n)).1.flatten
                  ++ (extractLoop fuel (buf.drop n)).2)) := by
                simp [List.append_assoc]
            _ = buf.take s ++ ((buf.drop s).take (n - s) ++ buf.drop n) := by
                rw [hjoin]
            _ = buf.take s ++ ((buf.drop s).take (n - s) ++ (buf.drop s).drop (n - s)) := by
                rw [h3]
            _ = buf.take s ++ buf.drop s := by
                rw [List.take_append_drop]
            _ = buf := List.take_append_drop s buf
        · intro hb
          have hs0 : s = 0 := by
            by_contra hne
            exact bfind_min h0 0 (Nat.zero_le 0) (by omega) (by simpa using hb)
          simp [hs0]

/-- Every frame sliced out by the loop is a verbatim contiguous slice of the
ingested buffer: it starts at a boundary-token occurrence, is terminated by
the next boundary-token occurrence, is at least as long as the token, and
contains no internal boundary-token occurrence. -/
theorem extractLoop_frames : ∀ (fuel : Nat) (buf fr : List Nat),
    fr ∈ (extractLoop fuel buf).1 →
    ∃ s, s + fr.length + 9 ≤ buf.length ∧ 9 ≤ fr.length ∧
      fr = (buf.drop s).take fr.length ∧
      boundary <+: buf.drop s ∧
      boundary <+: buf.drop (s + fr.length) ∧
      (∀ j, 0 < j → ¬ boundary <+: fr.drop j) := by
  intro fuel
  induction fuel with
  | zero =>
    intro buf fr h
    simp [extractLoop] at h
  | succ fuel ih =>
    intro buf fr h
    cases h0 : bfind boundary buf 0 with
    | none =>
      rw [show extractLoop (fuel + 1) buf = ([], buf) by simp [extractLoop, h0]] at h
      simp at h
    | some s =>
      cases h1 : bfind boundary buf (s + 9) with
      | none =>
        rw [show extractLoop (fuel + 1) buf = ([], buf) by simp [extractLoop, h0, h1]] at h
        simp at h
      | some n =>
        rw [show extractLoop (fuel + 1) buf
            = ((buf.drop s).take (n - s) :: (extractLoop fuel (buf.drop n)).1,
               (extractLoop fuel (buf.drop n)).2) by simp [extractLoop, h0, h1]] at h
        have hsn : s + 9 ≤ n := bfind_ge h1
        have hnb : n + 9 ≤ buf.length := by
          have := bfind_bound boundary_ne_nil h1
          rwa [boundary_length] at this
        rcases List.mem_cons.mp h with hfr | hfr
        · have hlen : fr.length = n - s := by
            rw [hfr]
            simp only [List.length_take, List.length_drop]
            omega
          refine ⟨s, by omega, by omega, ?_, bfind_occ h0, ?_, ?_⟩
          · rw [hlen]; exact hfr
          · have he : s + fr.length = n := by omega
            rw [he]; exact bfind_occ h1
          · intro j hj
            rw [hfr, ← hlen]
            rw [hlen]
            exact frame_no_internal (bfind_occ h0) (bfind_min h1) hsn (by omega) j hj
        · obtain ⟨t, ht1, ht2, ht3, ht4, ht5, ht6⟩ := ih (buf.drop n) fr hfr
          have hd1 : (buf.drop n).drop t = buf.drop (n + t) := by
            rw [List.drop_drop, Nat.add_comm]
          have hd2 : (buf.drop n).drop (t + fr.length) = buf.drop (n + t + fr.length) := by
            rw [List.drop_drop]
            congr 1
            omega
          refine ⟨n + t, ?_, ht2, ?_, ?_, ?_, ht6⟩
          · simp only [List.length_drop] at ht1
            omega
          · rw [← hd1]; exact ht3
          · rw [← hd1]; exact ht4
          · rw [← hd2]; exact ht5

/-- Instantiation of `extractLoop_frames` at the fuel used by
`extractFrames`: every frame the forwarder slices out of an accumulated
buffer is a verbatim contiguous slice of that buffer, starting at a
boundary-token occurrence and terminated by the next one. -/
theorem extractFrames_frame_spec (buf fr : List Nat)
    (h : fr ∈ (extractFrames buf).1) :
    ∃ s, s + fr.length + 9 ≤ buf.length ∧ 9 ≤ fr.length ∧
      fr = (buf.drop s).take fr.length ∧
      boundary <+: buf.drop s ∧
      boundary <+: buf.drop (s + fr.length) ∧
      (∀ j, 0 < j → ¬ boundary <+: fr.drop j) :=
  extractLoop_frames buf.length buf fr h

/-- Every sliced frame starts with the boundary token. -/
theorem extractFrames_starts_with_boundary (buf fr : List Nat)
    (h : fr ∈ (extractFrames buf).1) : boundary <+: fr := by
  obtain ⟨s, _, hlen, hslice, hpre, _, _⟩ := extractFrames_frame_spec buf fr h
  obtain ⟨t, ht⟩ := hpre
  refine ⟨fr.drop 9, ?_⟩
  have h9 : fr.take 9 = boundary := by
    rw [hslice, List.take_take, Nat.min_def, if_pos hlen, ← ht]
    simp [boundary_length, List.take_append]
  rw [← h9, List.take_append_drop]

/- ===== Spec §6 wire-format validity (C2) =====
The forwarder code performs no Content-Length validation; the following
definitions express the FramedChunk validity invariant of spec §3/§6 so
that the claim can be stated and compared against the code's behaviour. -/

/-- ASCII bytes of `Content-Type: image/jpeg\r\n`. -/
def contentTypeLine : List Nat :=
  [67, 111, 110, 116, 101, 110, 116, 45, 84, 121, 112, 101, 58, 32,
   105, 109, 97, 103, 101, 47, 106, 112, 101, 103, 13, 10]

/-- ASCII bytes of `Content-Length: `. -/
def clPrefix : List Nat :=
  [67, 111, 110, 116, 101, 110, 116, 45, 76, 101, 110, 103, 116, 104, 58, 32]

/-- ASCII bytes of `\r\n`. -/
def crlf : List Nat := [13, 10]

/-- Strip `pre` from the front of `l`, or fail. -/
def stripBytes (pre l : List Nat) : Option (List Nat) :=
  if pre.isPrefixOf l then some (l.drop pre.length) else none

/-- ASCII decimal digit test. -/
def isDigit (b : Nat) : Bool := 48 ≤ b && b ≤ 57

/-- Value of an ASCII decimal digit string. -/
def digitsToNat (ds : List Nat) : Nat :=
  ds.foldl (fun acc d => acc * 10 + (d - 48)) 0

/-- Parse a chunk against the spec §6 repeating unit
`--frame\r\n Content-Type: image/jpeg\r\n Content-Length: <N>\r\n \r\n
<payload>\r\n`; returns the declared length `N` and the actual payload. -/
def parseChunk (chunk : List Nat) : Option (Nat × List Nat) :=
  match stripBytes boundary chunk with
  | none => none
  | some r1 =>
    match stripBytes contentTypeLine r1 with
    | none => none
    | some r2 =>
      match stripBytes clPrefix r2 with
      | none => none
      | some r3 =>
        let ds := r3.takeWhile isDigit
        if ds.isEmpty then none
        else
          match stripBytes (crlf ++ crlf) (r3.dropWhile isDigit) with
          | none => none
          | some r4 =>
            if r4.length < 2 then none
            else if r4.drop (r4.length - 2) = crlf then
              some (digitsToNat ds, r4.take (r4.length - 2))
            else none

/-- Spec §3 invariant on a FramedChunk: the declared `Content-Length`
equals the actual byte length of the payload that follows. -/
def chunkLengthOk (chunk : List Nat) : Bool :=
  match parseChunk chunk with
  | some p => p.2.length == p.1
  | none => false

/-- A concrete malformed chunk: header declares `Content-Length: 5` but the
payload is the 2 bytes `ab`. -/
def badChunk : List Nat :=
  boundary ++ contentTypeLine ++ clPrefix ++ [53] ++ crlf ++ crlf ++ [97, 98] ++ crlf

/-- An upstream byte stream consisting of the malformed chunk followed by
the next boundary token (which makes the malformed chunk complete in the
forwarder's eyes). -/
def badBuf : List Nat := badChunk ++ boundary

/- ===== RelayForwarder reconnect state machine (C3) ===== -/

/-- Events driving one `MJPEGForwarder.forward_frames` loop
(`pi_server.py` lines 42–112): the outcome of the connect attempt, the
outcome of one `recv` call (data, upstream close, or an exception), and a
registration from the gateway layer (`add_client`). Events that cannot
occur in the current phase (for example a `recv` outcome while
disconnected) leave the state unchanged. -/
inductive RelayEvent where
  | connectOk
  | connectFail
  | recvData (d : List Nat)
  | recvClosed
  | recvError
  | addClient (c : Client)

/-- The observable state of one `MJPEGForwarder`: the `connected` flag, an
internal phase marker (`streaming` = inside the inner recv loop), the
accumulated buffer, and the consumer registry. -/
structure RelayState where
  connected : Bool
  streaming : Bool
  buffer : List Nat
  clients : List Client

/-- `MJPEGForwarder.__init__` (`pi_server.py` lines 33–40): `connected`
starts false with an empty registry. -/
def relayInit : RelayState :=
  { connected := false, streaming := false, buffer := [], clients := [] }

/-- One step of `forward_frames`:
* a successful connect sets `connected = True` and resets the buffer
  (lines 50–56);
* a failed connect raises, and the handler plus `finally` leave
  `connected = False` (lines 96–107);
* received data is appended to the buffer, complete frames are sliced out
  and fanned out to the registry, evicting dead clients (lines 59–94);
* an upstream close (`if not data: break`) or a recv exception falls
  through to `finally`, which sets `connected = False` (lines 60–62,
  96–107);
* `add_client` appends to the registry under the lock (lines 114–118).
`recv` outcomes can in reality only occur while streaming; when the guard
is false the event is ignored. -/
def relayStep (st : RelayState) (e : RelayEvent) : RelayState :=
  match e with
  | .addClient c => { st with clients := st.clients ++ [c] }
  | .connectOk => { st with connected := true, streaming := true, buffer := [] }
  | .connectFail => { st with connected := false, streaming := false }
  | .recvData d =>
    if st.streaming then
      { st with
        buffer := (extractFrames (st.buffer ++ d)).2,
        clients := (extractFrames (st.buffer ++ d)).1.foldl
          (fun cs fr => (forwardOne cs fr).2) st.clients }
    else st
  | .recvClosed => { st with connected := false, streaming := false, buffer := [] }
  | .recvError => { st with connected := false, streaming := false, buffer := [] }

/-- The forwarder state after a sequence of events, from process start. -/
def runRelay (es : List RelayEvent) : RelayState :=
  es.foldl relayStep relayInit

/-- An event that keeps an unbroken STREAMING period unbroken: received
data or a gateway-side registration. -/
def keepsStreaming (e : RelayEvent) : Prop :=
  (∃ d, e = RelayEvent.recvData d) ∨ (∃ c, e = RelayEvent.addClient c)

theorem relayStep_conn_eq (st : RelayState) (e : RelayEvent)
    (h : st.connected = st.streaming) :
    (relayStep st e).connected = (relayStep st e).streaming := by
  cases e <;> simp only [relayStep] <;>
    first
      | simpa using h
      | (split <;> simp [h])

theorem runRelay_conn_eq_aux (es : List RelayEvent) :
    ∀ st : RelayState, st.connected = st.streaming →
      (es.foldl relayStep st).connected = (es.foldl relayStep st).streaming := by
  induction es with
  | nil => intro st h; simpa using h
  | cons e es ih =>
    intro st h
    simpa using ih (relayStep st e) (relayStep_conn_eq st e h)

/-- Invariant: the externally observable `connected` flag is true exactly
while the loop is inside its inner streaming phase. -/
theorem runRelay_conn_eq_streaming (es : List RelayEvent) :
    (runRelay es).connected = (runRelay es).streaming :=
  runRelay_conn_eq_aux es relayInit rfl

theorem runRelay_append (es : List RelayEvent) (e : RelayEvent) :
    runRelay (es ++ [e]) = relayStep (runRelay es) e := by
  simp [runRelay, List.foldl_append]

theorem relayStep_keeps (st : RelayState) (e : RelayEvent)
    (hs : st.streaming = true) (hk : keepsStreaming e) :
    (relayStep st e).streaming = true ∧
      (relayStep st e).connected = st.connected := by
  rcases hk with ⟨d, rfl⟩ | ⟨c, rfl⟩
  · simp [relayStep, hs]
  · simp [relayStep, hs]

theorem relaySteps_keep (es : List RelayEvent) :
    ∀ st : RelayState, st.streaming = true → st.connected = true →
      (∀ e ∈ es, keepsStreaming e) →
      (es.foldl relayStep st).connected = true := by
  induction es with
  | nil => intro st _ hc _; simpa using hc
  | cons e es ih =>
    intro st hs hc hall
    have hk := relayStep_keeps st e hs (hall e (by simp))
    simpa using ih (relayStep st e) hk.1 (by rw [hk.2]; exact hc)
      (fun x hx => hall x (by simp [hx]))

/- ===== Worker stream loops (C5) ===== -/

/-- State of one `DetectionWorker.stream_to_client` loop together with the
worker-level `running` flag (`detection_worker.py` lines 453–518):
`badReads` is the local `bad_reads` counter, `exited` marks that the loop
has been left. -/
structure DetStreamState where
  badReads : Nat
  running : Bool
  exited : Bool
deriving DecidableEq

def detStreamInit : DetStreamState :=
  { badReads := 0, running := true, exited := false }

/-- One iteration of `DetectionWorker.stream_to_client`
(`detection_worker.py` lines 460–476), restricted to the read path:
`readOk` is whether `read_frame()` returned a frame, `reinitOk` whether a
triggered `init_camera()` reinitialization succeeds. A failed read
increments `bad_reads`; once it reaches 10 the camera is reinitialized
once, and if that fails the loop sets `self.running = False` and breaks.
A successful read resets `bad_reads` to 0 (line 476); the
detect/encode/send path below it is not relevant to claim C5. -/
def detStreamStep (reinitOk readOk : Bool) (s : DetStreamState) : DetStreamState :=
  if !s.running || s.exited then s
  else if readOk then { s with badReads := 0 }
  else if 10 ≤ s.badReads + 1 then
    if reinitOk then { s with badReads := 0 }
    else { badReads := s.badReads + 1, running := false, exited := true }
  else { s with badReads := s.badReads + 1 }

/-- The detection worker's stream loop after `n` iterations in which every
read fails and reinitialization fails. -/
def detRunFailing (n : Nat) : DetStreamState :=
  (detStreamStep false false)^[n] detStreamInit

/-- State of one `CameraWorker.stream_to_client` loop (`camera_worker.py`
lines 144–194): the loop has no failed-read counter at all. -/
structure CamStreamState where
  running : Bool
  exited : Bool
deriving DecidableEq

def camStreamInit : CamStreamState := { running := true, exited := false }

/-- One iteration of `CameraWorker.stream_to_client` (`camera_worker.py`
lines 149–176): if the camera is gone the loop breaks (line 151–153); a
failed read merely sleeps 10 ms and continues, leaving all state unchanged
(lines 156–159); a successful read encodes and sends, breaking only on a
send failure (lines 167–176). `running` is never written by this loop. -/
def camStreamStep (cameraAvailable readOk sendOk : Bool) (s : CamStreamState) :
    CamStreamState :=
  if !s.running || s.exited then s
  else if !cameraAvailable then { s with exited := true }
  else if !readOk then s
  else if !sendOk then { s with exited := true }
  else s

/-- The camera worker's stream loop after `n` iterations in which the
camera stays open but every read fails. -/
def camRunFailing (n : Nat) : CamStreamState :=
  (camStreamStep true false true)^[n] camStreamInit

/- ===== FrameSource acquisition (C6) ===== -/

/-- One capture-backend attempt: `opened` is the result of
`cv2.VideoCapture(...).isOpened()`, `reads` the outcomes of its successive
`camera.read()` calls. -/
structure Strategy where
  opened : Bool
  reads : Nat → Bool

/-- The warm-up loop `for _ in range(3): ok, _ = camera.read(); if ok:
break` (`camera_worker.py` lines 104–108, `detection_worker.py` lines
199–204): succeeds iff one of the first three reads succeeds. -/
def warmupOk (s : Strategy) : Bool := s.reads 0 || s.reads 1 || s.reads 2

/-- The backend cascade: try strategies in priority order and keep the
first accepted one (`camera_worker.py` lines 56–96 — GStreamer first, then
the platform-specific fallbacks; `detection_worker.py` lines 158–185). -/
def selectFirst (p : Strategy → Bool) : List Strategy → Option Strategy
  | [] => none
  | s :: ss => if p s then some s else selectFirst p ss

inductive CamInit where
  | ok (s : Strategy)
  | fail

/-- `CameraWorker.init_camera` (`camera_worker.py` lines 47–118): select
the first strategy that reports opened; raise (return False) if none opens
or if the selected strategy fails all three warm-up reads. -/
def camInitCamera (strategies : List Strategy) : CamInit :=
  match selectFirst (fun s => s.opened) strategies with
  | none => .fail
  | some s => if warmupOk s then .ok s else .fail

inductive DetInit where
  | direct (s : Strategy)
  | mjpeg
  | fail

/-- `DetectionWorker.init_camera` (`detection_worker.py` lines 146–234):
select the first strategy that reports opened and survives warm-up (a
warm-up failure releases the capture and moves on, lines 206–212);
otherwise fall back to the MJPEG input from the camera worker (lines
215–220); if that also fails, initialization fails. -/
def detInitCamera (strategies : List Strategy) (mjpegOk : Bool) : DetInit :=
  match selectFirst (fun s => s.opened) strategies with
  | none => if mjpegOk then .mjpeg else .fail
  | some s =>
    if warmupOk s then .direct s
    else if mjpegOk then .mjpeg else .fail

inductive WorkerRun where
  | exitedAtInit
  | exitedAtServer
  | serving

/-- `CameraWorker.run` (`camera_worker.py` lines 196–232): an
`init_camera` failure returns before the server starts; a `start_server`
failure returns next; otherwise the accept loop runs. -/
def camWorkerRun (strategies : List Strategy) (serverOk : Bool) : WorkerRun :=
  match camInitCamera strategies with
  | .fail => .exitedAtInit
  | .ok _ => if serverOk then .serving else .exitedAtServer

/-- `DetectionWorker.run` (`detection_worker.py` lines 520–565), camera
and server stages. -/
def detWorkerRun (strategies : List Strategy) (mjpegOk serverOk : Bool) : WorkerRun :=
  match detInitCamera strategies mjpegOk with
  | .fail => .exitedAtInit
  | _ => if serverOk then .serving else .exitedAtServer

theorem selectFirst_opened_good (L : List Strategy) (s : Strategy)
    (h : selectFirst (fun t => t.opened) L = some s) (hw : warmupOk s = true) :
    selectFirst (fun t => t.opened && warmupOk t) L = some s := by
  induction L with
  | nil => simp [selectFirst] at h
  | cons t ts ih =>
    by_cases ht : t.opened
    · simp [selectFirst, ht] at h
      subst h
      simp [selectFirst, ht, hw]
    · simp [selectFirst, ht] at h ⊢
      simpa [ht] using ih h

/- ===== CommandChannel (C7) ===== -/

/-- Outcome of `json.loads(data)` plus the field accesses in the command
handler (`detection_worker.py` lines 417–423): either a structured command
with its `cmd` name and `text` field (defaulted to the empty string by
`cmd.get('text','')`), or a failure whose description `str(e)` is
returned. -/
inductive CmdParse where
  | parsed (cmd : String) (text : String)
  | malformed (desc : String)

/-- The runtime prompt shared between the command handler and the
detection cycle (`detection_worker.py` lines 71–72). -/
structure PromptState where
  promptText : String
  prompts : List String
deriving DecidableEq

/-- `self.prompts = [str(s) for s in text.split(', ')]`
(`detection_worker.py` line 423). -/
def splitPrompt (t : String) : List String := t.splitOn ", "

/-- Handling of one command connection (`detection_worker.py` lines
417–430): a `set_prompt` command updates the prompt state and answers
`OK`; any other parsed command answers `UNKNOWN`; a parse or handler
failure answers with the error description. Exactly one response is
written, then the connection is closed. -/
def handleCommand (st : PromptState) (req : CmdParse) : PromptState × String :=
  match req with
  | .malformed d => (st, d)
  | .parsed c t =>
    if c = "set_prompt" then ({ promptText := t, prompts := splitPrompt t }, "OK")
    else (st, "UNKNOWN")

/-- The command accept loop (`detection_worker.py` lines 406–432): each
accepted connection is handled in turn and can never stop the loop.
Returns the final prompt state and one response per connection. -/
def commandLoop (st : PromptState) : List CmdParse → PromptState × List String
  | [] => (st, [])
  | r :: rs =>
    ((commandLoop (handleCommand st r).1 rs).1,
     (handleCommand st r).2 :: (commandLoop (handleCommand st r).1 rs).2)

/- ===== WorkerSupervisor liveness check (C8) ===== -/

/-- The fixed ordered worker port list (`pi_server.py` line 24). -/
def CAMERA_PORTS : List Nat := [9000, 9001]

/-- The probe loop of `PiServer.check_jetson_workers` (`pi_server.py`
lines 143–153): `connect timeout port` is the `connect_ex` result code of
a TCP connect attempt with the given socket timeout (0 = success; an
exception is folded into a nonzero code). Ports are probed in list order
and the first failing port is returned as the diagnostic. -/
def checkPorts (connect : Nat → Nat → Int) : List Nat → Bool × Option Nat
  | [] => (true, none)
  | p :: ps => if connect 2 p ≠ 0 then (false, some p) else checkPorts connect ps

/-- `PiServer.check_jetson_workers` (`pi_server.py` lines 139–156): probe
every configured camera port with a 2-second timeout. -/
def check_jetson_workers (connect : Nat → Nat → Int) : Bool × Option Nat :=
  checkPorts connect CAMERA_PORTS

theorem checkPorts_eq_find (connect : Nat → Nat → Int) (L : List Nat) :
    checkPorts connect L =
      match L.find? (fun p => decide (connect 2 p ≠ 0)) with
      | none => (true, none)
      | some q => (false, some q) := by
  induction L with
  | nil => rfl
  | cons p ps ih =>
    by_cases h : connect 2 p ≠ 0
    · simp [checkPorts, h, List.find?]
    · simp only [checkPorts, if_neg h, List.find?]
      have hd : (decide (connect 2 p ≠ 0)) = false := by simp [h]
      rw [hd]
      simpa using ih

/- ===== StreamServer camera-lock structure (C9) ===== -/

/-- Atomic steps of one StreamServer client-handler loop body, in source
order. -/
inductive HandlerAction where
  | acquireCamLock
  | releaseCamLock
  | readCam
  | detect
  | encode
  | send

/-- Loop body of `CameraWorker.stream_to_client` (`camera_worker.py` lines
149–170): the camera read happens inside `with self.camera_lock`; encoding
and the socket write happen after the lock is released. -/
def camHandlerBody : List HandlerAction :=
  [.acquireCamLock, .readCam, .releaseCamLock, .encode, .send]

/-- Loop body of `DetectionWorker.stream_to_client` (`detection_worker.py`
lines 460–495): `read_frame` (line 461, which reads the shared
`self.camera` at lines 308–313) is called with no lock held —
`DetectionWorker` defines no camera mutex at all — then detection,
encoding and the socket write follow. -/
def detHandlerBody : List HandlerAction :=
  [.readCam, .detect, .encode, .send]

/-- Does every camera read in a handler body happen while the camera mutex
is held? (`d` counts currently held acquisitions.) -/
def readsUnderLock : Nat → List HandlerAction → Bool
  | _, [] => true
  | d, a :: as =>
    match a with
    | .acquireCamLock => readsUnderLock (d + 1) as
    | .releaseCamLock => readsUnderLock (d - 1) as
    | .readCam => decide (0 < d) && readsUnderLock d as
    | _ => readsUnderLock d as

/-- Does every detect/encode/send step in a handler body happen outside
the camera mutex? -/
def workOutsideLock : Nat → List HandlerAction → Bool
  | _, [] => true
  | d, a :: as =>
    match a with
    | .acquireCamLock => workOutsideLock (d + 1) as
    | .releaseCamLock => workOutsideLock (d - 1) as
    | .readCam => workOutsideLock d as
    | _ => decide (d = 0) && workOutsideLock d as

/- ===== EdgeGateway camera route (C10) ===== -/

/-- Python list indexing `lst[i]` including negative-index semantics;
`none` models an `IndexError`. -/
def pyGet {α : Type} (l : List α) (i : Int) : Option α :=
  if 0 ≤ i then l.get? i.toNat
  else if -(l.length : Int) ≤ i then l.get? ((l.length : Int) + i).toNat
  else none

inductive ServeOutcome (α : Type) where
  | http404
  | internalError
  | stream (f : α)

/-- Routing stage of `Handler.serve_camera_stream` (`pi_server.py` lines
437–463): the only bounds check is `camera_id >= len(self.pi_server.
forwarders)` (line 441), which sends 404; otherwise the forwarder is
fetched by Python indexing (line 445; an IndexError would be caught by the
surrounding `except` with no HTTP error sent). `stream f` means the
request proceeds against forwarder `f` (connected-wait and streaming
follow). -/
def serve_camera_stream {α : Type} (forwarders : List α) (cameraId : Int) :
    ServeOutcome α :=
  if (forwarders.length : Int) ≤ cameraId then .http404
  else
    match pyGet forwarders cameraId with
    | some f => .stream f
    | none => .internalError

/- ===== Claim theorems ===== -/

/-- Claim C1: for every chunk the RelayForwarder slices out of its
accumulated buffer, the slicing happens exactly at occurrences of the
boundary token `--frame\r\n` — the buffer decomposes into the sliced
chunks (in order) plus the retained remainder, every sliced chunk starts
with the boundary token and contains no internal occurrence of it — and
each sliced chunk is written byte-identically (no re-decode or re-encode)
to every currently registered consumer whose write does not fail. -/
theorem c1_forwarder_slices_at_boundaries_and_forwards_verbatim
    (buf fr : List Nat) (clients : List Client) (c : Client)
    (hfr : fr ∈ (extractFrames buf).1) (hc : c ∈ clients)
    (halive : c.failsWrite = false) :
    (∃ junk, junk ++ (extractFrames buf).1.flatten ++ (extractFrames buf).2 = buf
       ∧ (boundary <+: buf → junk = [])) ∧
    boundary <+: fr ∧
    (∀ j, 0 < j → ¬ boundary <+: fr.drop j) ∧
    (c, fr) ∈ (forwardOne clients fr).1 := by
  refine ⟨extractLoop_join buf.length buf,
    extractFrames_starts_with_boundary buf fr hfr, ?_, ?_⟩
  · obtain ⟨s, _, _, _, _, _, hint⟩ := extractFrames_frame_spec buf fr hfr
    exact hint
  · rw [forwardOne_writes]
    exact List.mem_map.mpr ⟨c, List.mem_filter.mpr ⟨hc, by simp [halive]⟩, rfl⟩

theorem c1_witness :
    (boundary ++ [65]) ∈ (extractFrames (boundary ++ [65] ++ boundary)).1 ∧
    (⟨0, false⟩ : Client) ∈ ([⟨0, false⟩, ⟨1, true⟩] : List Client) ∧
    (Client.mk 0 false).failsWrite = false ∧
    ((⟨0, false⟩ : Client), boundary ++ [65])
      ∈ (forwardOne [⟨0, false⟩, ⟨1, true⟩] (boundary ++ [65])).1 :=
  ⟨by decide, by decide, rfl,
   (c1_forwarder_slices_at_boundaries_and_forwards_verbatim
      (boundary ++ [65] ++ boundary) (boundary ++ [65])
      [⟨0, false⟩, ⟨1, true⟩] ⟨0, false⟩
      (by decide) (by decide) rfl).2.2.2⟩

/-- Claim C2 counterexample: the forwarder performs no Content-Length
validation. Fed `badBuf`, whose single complete chunk declares
`Content-Length: 5` but carries a 2-byte payload, it slices that malformed
chunk out and forwards it to a registered consumer. -/
theorem c2_counterexample_malformed_chunk_forwarded :
    (extractFrames badBuf).1 = [badChunk] ∧
    chunkLengthOk badChunk = false ∧
    (forwardOne [⟨0, false⟩] badChunk).1 = [(⟨0, false⟩, badChunk)] := by
  refine ⟨by decide, by decide, by decide⟩

/-- Claim C2 (amended): the forwarder never checks the declared
Content-Length. What holds instead: every forwarded chunk is a verbatim
contiguous slice of the ingested bytes that begins at a boundary-token
occurrence and is terminated by a following boundary-token occurrence (so
a truncated trailing chunk is never forwarded), and therefore a forwarded
chunk satisfies the declared-length invariant exactly when the ingested
slice did. -/
theorem c2_forwarded_chunks_complete_and_verbatim
    (buf fr : List Nat) (hfr : fr ∈ (extractFrames buf).1) :
    ∃ s, fr = (buf.drop s).take fr.length ∧
      boundary <+: buf.drop s ∧
      boundary <+: buf.drop (s + fr.length) ∧
      chunkLengthOk fr = chunkLengthOk ((buf.drop s).take fr.length) := by
  obtain ⟨s, _, _, hslice, hpre, hterm, _⟩ := extractFrames_frame_spec buf fr hfr
  exact ⟨s, hslice, hpre, hterm, by rw [← hslice]⟩

theorem c2_witness :
    badChunk ∈ (extractFrames badBuf).1 ∧
    ∃ s, badChunk = (badBuf.drop s).take badChunk.length ∧
      boundary <+: badBuf.drop s ∧
      boundary <+: badBuf.drop (s + badChunk.length) ∧
      chunkLengthOk badChunk = chunkLengthOk ((badBuf.drop s).take badChunk.length) :=
  ⟨by decide,
   c2_forwarded_chunks_complete_and_verbatim badBuf badChunk (by decide)⟩

/-- Claim C3: the `connected` flag of a forwarder is false at process
start, and after any sequence of events it is true exactly when the trace
ends in an unbroken streaming period — a successful upstream connect
followed only by received data and gateway-side registrations. Any connect
failure, recv error, or upstream close since the last successful connect
leaves it false. -/
theorem c3_connected_iff_unbroken_streaming :
    (runRelay []).connected = false ∧
    ∀ es : List RelayEvent,
      ((runRelay es).connected = true ↔
        ∃ es₁ es₂, es = es₁ ++ RelayEvent.connectOk :: es₂ ∧
          ∀ e ∈ es₂, keepsStreaming e) := by
  refine ⟨rfl, ?_⟩
  intro es
  constructor
  · induction es using List.reverseRecOn with
    | nil =>
      intro h
      exact absurd h (by simp [runRelay, relayInit])
    | append_singleton es e ih =>
      intro h
      rw [runRelay_append] at h
      cases e with
      | connectOk => exact ⟨es, [], by simp, by simp⟩
      | connectFail => simp [relayStep] at h
      | recvClosed => simp [relayStep] at h
      | recvError => simp [relayStep] at h
      | recvData d =>
        have hpres : (relayStep (runRelay es) (RelayEvent.recvData d)).connected
            = (runRelay es).connected := by
          simp only [relayStep]
          split <;> rfl
        rw [hpres] at h
        obtain ⟨es₁, es₂, heq, hall⟩ := ih h
        refine ⟨es₁, es₂ ++ [RelayEvent.recvData d], by rw [heq]; simp, ?_⟩
        intro e he
        rcases List.mem_append.mp he with h1 | h1
        · exact hall e h1
        · simp only [List.mem_singleton] at h1
          subst h1
          exact Or.inl ⟨d, rfl⟩
      | addClient c =>
        have hpres : (relayStep (runRelay es) (RelayEvent.addClient c)).connected
            = (runRelay es).connected := rfl
        rw [hpres] at h
        obtain ⟨es₁, es₂, heq, hall⟩ := ih h
        refine ⟨es₁, es₂ ++ [RelayEvent.addClient c], by rw [heq]; simp, ?_⟩
        intro e he
        rcases List.mem_append.mp he with h1 | h1
        · exact hall e h1
        · simp only [List.mem_singleton] at h1
          subst h1
          exact Or.inr ⟨c, rfl⟩
  · rintro ⟨es₁, es₂, rfl, hall⟩
    have hsplit : runRelay (es₁ ++ RelayEvent.connectOk :: es₂)
        = es₂.foldl relayStep (relayStep (runRelay es₁) RelayEvent.connectOk) := by
      simp [runRelay, List.foldl_append]
    rw [hsplit]
    exact relaySteps_keep es₂ _ rfl rfl hall

theorem c3_witness :
    (runRelay [RelayEvent.connectOk, RelayEvent.recvData [1]]).connected = true := by
  refine (c3_connected_iff_unbroken_streaming.2
    [RelayEvent.connectOk, RelayEvent.recvData [1]]).mpr
    ⟨[], [RelayEvent.recvData [1]], rfl, ?_⟩
  intro e he
  simp only [List.mem_singleton] at he
  subst he
  exact Or.inl ⟨[1], rfl⟩

/-- Claim C4: during one fan-out of a chunk over the registry, exactly the
clients whose write fails are evicted — a failing client is removed, every
other client stays registered and receives the chunk — and the resulting
registry is a total function of the old one (delivery to the others and
the ingest loop are never interrupted). -/
theorem c4_write_failure_evicts_only_failing_client
    (clients : List Client) (chunk : List Nat) (c : Client) (hc : c ∈ clients) :
    (c.failsWrite = true → c ∉ (forwardOne clients chunk).2) ∧
    (c.failsWrite = false →
      c ∈ (forwardOne clients chunk).2 ∧ (c, chunk) ∈ (forwardOne clients chunk).1) ∧
    (forwardOne clients chunk).2 = clients.filter (fun t => !t.failsWrite) := by
  refine ⟨?_, ?_, forwardOne_registry clients chunk⟩
  · intro hf hmem
    rw [forwardOne_registry] at hmem
    have := List.of_mem_filter hmem
    simp [hf] at this
  · intro hf
    constructor
    · rw [forwardOne_registry]
      exact List.mem_filter.mpr ⟨hc, by simp [hf]⟩
    · rw [forwardOne_writes]
      exact List.mem_map.mpr ⟨c, List.mem_filter.mpr ⟨hc, by simp [hf]⟩, rfl⟩

theorem c4_witness :
    (⟨1, true⟩ : Client) ∈ ([⟨0, false⟩, ⟨1, true⟩, ⟨2, false⟩] : List Client) ∧
    (Client.mk 1 true).failsWrite = true ∧
    (⟨1, true⟩ : Client) ∉ (forwardOne [⟨0, false⟩, ⟨1, true⟩, ⟨2, false⟩] [7, 7]).2 ∧
    (forwardOne [⟨0, false⟩, ⟨1, true⟩, ⟨2, false⟩] [7, 7]).2
      = ([⟨0, false⟩, ⟨1, true⟩, ⟨2, false⟩] : List Client).filter
          (fun t => !t.failsWrite) :=
  ⟨by decide, rfl,
   (c4_write_failure_evicts_only_failing_client
      [⟨0, false⟩, ⟨1, true⟩, ⟨2, false⟩] [7, 7] ⟨1, true⟩ (by decide)).1 rfl,
   (c4_write_failure_evicts_only_failing_client
      [⟨0, false⟩, ⟨1, true⟩, ⟨2, false⟩] [7, 7] ⟨1, true⟩ (by decide)).2.2⟩

/-- Claim C5 counterexample: with the camera reported open and every read
failing, the camera worker's stream loop is still running and still inside
its loop after 50 failed reads — far past the claimed budget of 10 reads
plus one failed reinitialization. `CameraWorker.stream_to_client` has no
retry budget at all: a failed read only sleeps and continues. -/
theorem c5_counterexample_camera_worker_never_fatal :
    (camRunFailing 50).running = true ∧ (camRunFailing 50).exited = false := by
  have h : camRunFailing 50 = camStreamInit := by
    rw [camRunFailing]
    exact Function.iterate_fixed rfl 50
  rw [h]
  exact ⟨rfl, rfl⟩

/-- Claim C5 (amended): the budgeted fatal shutdown holds for the
detection worker only. With every read failing and reinitialization
failing, `DetectionWorker.stream_to_client` keeps `running = true` inside
its loop for the first 9 failed reads, and on the 10th failed read
attempts one reinitialization, fails, sets `running = false` and exits —
exactly at the budget, not before. The camera worker, by contrast, has no
budget: its loop state never changes under failed reads, so it retries
indefinitely and never reaches a fatal shutdown. -/
theorem c5_detection_budget_exact_camera_indefinite (n : Nat) :
    (n < 10 → detRunFailing n = ⟨n, true, false⟩) ∧
    detRunFailing 10 = ⟨10, false, true⟩ ∧
    camRunFailing n = ⟨true, false⟩ := by
  have hdet : ∀ m, m < 10 → detRunFailing m = ⟨m, true, false⟩ := by
    intro m
    induction m with
    | zero => intro _; rfl
    | succ k ih =>
      intro hk
      have hk9 : k < 10 := by omega
      have hle : ¬ (10 ≤ k + 1) := by omega
      rw [detRunFailing, Function.iterate_succ_apply']
      rw [show (detStreamStep false false)^[k] detStreamInit = detRunFailing k from rfl,
        ih hk9]
      simp [detStreamStep, hle]
  have hcam : ∀ m, camRunFailing m = ⟨true, false⟩ := by
    intro m
    induction m with
    | zero => rfl
    | succ k ih =>
      rw [camRunFailing, Function.iterate_succ_apply']
      rw [show (camStreamStep true false true)^[k] camStreamInit = camRunFailing k from rfl,
        ih]
      rfl
  refine ⟨hdet n, ?_, hcam n⟩
  rw [show (10 : Nat) = 9 + 1 from rfl, detRunFailing, Function.iterate_succ_apply']
  rw [show (detStreamStep false false)^[9] detStreamInit = detRunFailing 9 from rfl,
    hdet 9 (by omega)]
  rfl

theorem c5_witness :
    3 < 10 ∧ detRunFailing 3 = ⟨3, true, false⟩ ∧ camRunFailing 3 = ⟨true, false⟩ :=
  ⟨by decide,
   (c5_detection_budget_exact_camera_indefinite 3).1 (by decide),
   (c5_detection_budget_exact_camera_indefinite 3).2.2⟩

/-- Claim C6: in both workers' `init_camera`, strategies are attempted in
priority order; whenever a strategy is selected it is the first one that
reports opened, it survived the three warm-up reads, and it is the first
strategy that both opens and survives warm-up; a strategy that opens but
fails all warm-up reads is never selected; and an initialization failure
(all strategies exhausted, including the detection worker's MJPEG
fallback) makes the owning worker exit before serving. -/
theorem c6_first_opened_surviving_strategy_selected
    (L : List Strategy) (s : Strategy) (mj srv : Bool) :
    (camInitCamera L = .ok s →
       selectFirst (fun t => t.opened) L = some s ∧ warmupOk s = true ∧
       selectFirst (fun t => t.opened && warmupOk t) L = some s) ∧
    (detInitCamera L mj = .direct s →
       selectFirst (fun t => t.opened) L = some s ∧ warmupOk s = true ∧
       selectFirst (fun t => t.opened && warmupOk t) L = some s) ∧
    (camInitCamera L = .fail → camWorkerRun L srv = .exitedAtInit) ∧
    (detInitCamera L mj = .fail → detWorkerRun L mj srv = .exitedAtInit) := by
  refine ⟨?_, ?_, ?_, ?_⟩
  · intro h
    cases hsel : selectFirst (fun t => t.opened) L with
    | none => simp [camInitCamera, hsel] at h
    | some t =>
      simp only [camInitCamera, hsel] at h
      by_cases hw : warmupOk t
      · rw [if_pos hw] at h
        injection h with ht
        subst ht
        exact ⟨rfl, hw, selectFirst_opened_good L t hsel hw⟩
      · rw [if_neg hw] at h
        cases h
  · intro h
    cases hsel : selectFirst (fun t => t.opened) L with
    | none =>
      by_cases hm : mj = true <;> simp [detInitCamera, hsel, hm] at h
    | some t =>
      simp only [detInitCamera, hsel] at h
      by_cases hw : warmupOk t
      · rw [if_pos hw] at h
        injection h with ht
        subst ht
        exact ⟨rfl, hw, selectFirst_opened_good L t hsel hw⟩
      · rw [if_neg hw] at h
        by_cases hm : mj = true <;> simp [hm] at h
  · intro h
    simp [camWorkerRun, h]
  · intro h
    simp [detWorkerRun, h]

theorem c6_witness :
    camInitCamera [⟨false, fun _ => false⟩, ⟨true, fun _ => true⟩]
      = CamInit.ok ⟨true, fun _ => true⟩ ∧
    selectFirst (fun t => t.opened && warmupOk t)
      [⟨false, fun _ => false⟩, ⟨true, fun _ => true⟩]
      = some ⟨true, fun _ => true⟩ :=
  ⟨rfl,
   (c6_first_opened_surviving_strategy_selected
      [⟨false, fun _ => false⟩, ⟨true, fun _ => true⟩]
      ⟨true, fun _ => true⟩ true true).1 rfl |>.2.2⟩

/-- Claim C7: each command connection is handled with exactly one response
(the accept loop answers every connection in turn, so it keeps serving
after any request): `set_prompt` replaces the runtime prompt and its split
label list and answers `OK`; any other parsed command leaves the state
unchanged and answers `UNKNOWN`; a malformed envelope leaves the state
unchanged and gets the error's description as the response body. -/
theorem c7_command_channel_one_response_per_connection
    (st : PromptState) (reqs : List CmdParse) (c t d : String)
    (hc : c ≠ "set_prompt") :
    (commandLoop st reqs).2.length = reqs.length ∧
    handleCommand st (.parsed "set_prompt" t)
      = ({ promptText := t, prompts := splitPrompt t }, "OK") ∧
    handleCommand st (.parsed c t) = (st, "UNKNOWN") ∧
    handleCommand st (.malformed d) = (st, d) := by
  refine ⟨?_, rfl, ?_, rfl⟩
  · induction reqs generalizing st with
    | nil => rfl
    | cons r rs ih => simpa [commandLoop] using ih (handleCommand st r).1
  · simp [handleCommand, hc]

theorem c7_witness :
    ("bogus" : String) ≠ "set_prompt" ∧
    (commandLoop ⟨"a, b", ["a", "b"]⟩
      [CmdParse.parsed "set_prompt" "a ball", CmdParse.parsed "bogus" "",
       CmdParse.malformed "bad json"]).2.length = 3 ∧
    handleCommand ⟨"a, b", ["a", "b"]⟩ (.parsed "bogus" "") = (⟨"a, b", ["a", "b"]⟩, "UNKNOWN") :=
  ⟨by decide,
   (c7_command_channel_one_response_per_connection ⟨"a, b", ["a", "b"]⟩
      [CmdParse.parsed "set_prompt" "a ball", CmdParse.parsed "bogus" "",
       CmdParse.malformed "bad json"] "bogus" "" "bad json" (by decide)).1,
   (c7_command_channel_one_response_per_connection ⟨"a, b", ["a", "b"]⟩
      [CmdParse.parsed "set_prompt" "a ball", CmdParse.parsed "bogus" "",
       CmdParse.malformed "bad json"] "bogus" "" "bad json" (by decide)).2.2.1⟩

/-- Claim C8: the liveness check probes each configured port in list
order with the 2-second timeout; it reports healthy `(true, none)` exactly
when every connect succeeds, and otherwise reports `(false, some q)` where
`q` is exactly the first port in list order whose connect failed. -/
theorem c8_liveness_first_failing_port (connect : Nat → Nat → Int) :
    (check_jetson_workers connect = (true, none) ↔
      ∀ p ∈ CAMERA_PORTS, connect 2 p = 0) ∧
    ∀ q : Nat, (check_jetson_workers connect = (false, some q) ↔
      CAMERA_PORTS.find? (fun p => decide (connect 2 p ≠ 0)) = some q) := by
  have hE := checkPorts_eq_find connect CAMERA_PORTS
  constructor
  · rw [check_jetson_workers, hE]
    cases hF : CAMERA_PORTS.find? (fun p => decide (connect 2 p ≠ 0)) with
    | none =>
      simp only [hF]
      constructor
      · intro _ p hp
        have := List.find?_eq_none.mp hF p hp
        simpa using this
      · intro _
        trivial
    | some q =>
      simp only [hF]
      constructor
      · intro h
        exact absurd h (by simp)
      · intro hall
        exfalso
        have hqmem := List.mem_of_find?_eq_some hF
        have hqp := List.find?_some hF
        simp only [decide_eq_true_eq] at hqp
        exact hqp (hall q hqmem)
  · intro q
    rw [check_jetson_workers, hE]
    cases hF : CAMERA_PORTS.find? (fun p => decide (connect 2 p ≠ 0)) with
    | none =>
      simp only [hF]
      constructor
      · intro h
        exact absurd h (by simp)
      · intro h
        simp at h
    | some r =>
      simp only [hF]
      constructor
      · intro h
        have hr : r = q := by
          have h2 := congrArg Prod.snd h
          simpa using h2
        rw [hr]
      · intro h
        have hr : r = q := by simpa using h
        rw [hr]

theorem c8_witness :
    check_jetson_workers (fun _ p => if p == 9001 then 1 else 0)
      = (false, some 9001) :=
  ((c8_liveness_first_failing_port (fun _ p => if p == 9001 then 1 else 0)).2
    9001).mpr (by decide)

/-- Claim C9: the claim holds for the camera worker — its handler body
reads the camera only while holding `camera_lock`, and all encode/send
work happens outside the lock — but it fails for the detection worker:
`DetectionWorker` defines no camera mutex, and its handler body performs
the shared camera read with no lock held, so camera access is not mutually
exclusive across its simultaneous client-handler threads. -/
theorem c9_detection_worker_reads_camera_unlocked :
    readsUnderLock 0 camHandlerBody = true ∧
    workOutsideLock 0 camHandlerBody = true ∧
    readsUnderLock 0 detHandlerBody = false := by
  decide

/-- Claim C10: a `/camera/{id}` request whose id parses as a negative
integer with absolute value at most the forwarder count is not rejected
with 404 — the only bounds check is `camera_id >= len(forwarders)` — and
the request proceeds against the forwarder at Python index
`count + id` (so camera id -1 serves the last configured camera). -/
theorem c10_negative_camera_id_not_rejected {α : Type} (fs : List α) (id : Int)
    (h1 : id < 0) (h2 : id.natAbs ≤ fs.length) :
    serve_camera_stream fs id ≠ ServeOutcome.http404 ∧
    ∃ f, fs.get? ((fs.length : Int) + id).toNat = some f ∧
      serve_camera_stream fs id = ServeOutcome.stream f := by
  have hneg : -(fs.length : Int) ≤ id := by omega
  have hnot : ¬ ((fs.length : Int) ≤ id) := by omega
  have hidx : ((fs.length : Int) + id).toNat < fs.length := by omega
  obtain ⟨f, hf⟩ : ∃ f, fs.get? ((fs.length : Int) + id).toNat = some f :=
    ⟨fs.get ⟨_, hidx⟩, List.get?_eq_get hidx⟩
  have hserve : serve_camera_stream fs id = ServeOutcome.stream f := by
    rw [serve_camera_stream, if_neg hnot, pyGet,
      if_neg (by omega : ¬ (0 ≤ id)), if_pos hneg, hf]
  refine ⟨?_, f, hf, hserve⟩
  rw [hserve]
  intro h
  cases h

theorem c10_witness :
    (-1 : Int) < 0 ∧ (Int.natAbs (-1)) ≤ ([10, 20] : List Nat).length ∧
    serve_camera_stream ([10, 20] : List Nat) (-1) ≠ ServeOutcome.http404 ∧
    ∃ f, ([10, 20] : List Nat).get? ((([10, 20] : List Nat).length : Int) + (-1)).toNat
        = some f ∧
      serve_camera_stream ([10, 20] : List Nat) (-1) = ServeOutcome.stream f :=
  ⟨by decide, by decide,
   (c10_negative_camera_id_not_rejected [10, 20] (-1) (by decide) (by decide)).1,
   (c10_negative_camera_id_not_rejected [10, 20] (-1) (by decide) (by decide)).2⟩

end NanoOwl
